/-
Verification development for the NEXUS-HYBRID pipeline-orchestration and
progress-distribution subsystem.

The definitions below are a shallow embedding of two Python modules:

* `backend/utils/progress_stream.py` — class `ProgressManager`: a job-scoped
  event bus with per-subscriber queues, history replay, a closed flag, and a
  cached-result map.  The registry state (`_queues`, `_results`, `_history`,
  `_closed`) is embedded as association lists keyed by the job id; each
  `asyncio.Queue` is identified by a natural number allocated at `subscribe`
  time, and the ordered contents that a subscriber would drain from its queue
  are recorded in `qContents`.  The Python `None` sentinel pushed at stream end
  is `QItem.endMarker`.  Every method of the class holds the single registry
  lock for its mutating section; under asyncio's cooperative scheduling the
  remaining statements of `subscribe` (replaying history into a fresh unbounded
  queue) contain no suspension point, so each method is embedded as one atomic
  state transformer.

* `backend/agents/manager.py` — `_run_stage`, `_process_single_document`,
  `ASYNC_BATCH_SIZE` and `process_documents_pipeline`: the per-stage runner
  (timing, status capture, append-to-log in a `finally` block), the
  per-document processor (conditional OCR stage, regime defaulting, fan-out of
  audit/classify/compute), and the batch orchestrator
  (`asyncio.gather` over one task per document, no `return_exceptions`).
  External collaborators (`run_ocr`, `audit`, `classify`, `compute`,
  `enrich_with_xai`, `accountant_agent`) are parameters returning
  `Except String _`, an exception being `Except.error msg`.
-/
import Mathlib

set_option linter.unusedVariables false

/-! ## Association-list helpers

`Dict[str, ...]` maps of the Python state are embedded as association lists
with the dictionary operations used by the source: lookup (`get`), update
(`[...] = `), removal (`pop`). -/

def alookup [DecidableEq κ] (l : List (κ × α)) (k : κ) : Option α :=
  match l with
  | [] => none
  | (k', v) :: t => if k' = k then some v else alookup t k

def aset [DecidableEq κ] (l : List (κ × α)) (k : κ) (v : α) : List (κ × α) :=
  match l with
  | [] => [(k, v)]
  | (k', v') :: t => if k' = k then (k, v) :: t else (k', v') :: aset t k v

def aremove [DecidableEq κ] (l : List (κ × α)) (k : κ) : List (κ × α) :=
  match l with
  | [] => []
  | (k', v') :: t => if k' = k then aremove t k else (k', v') :: aremove t k

/-! ## Progress broadcaster / job registry (`ProgressManager`) -/

namespace PS

abbrev JobId := String

/-- Wire events published through the broadcaster.  `closing j` is the
synthetic `{"type": "job", "status": "closed", "job_id": j}` dictionary that
`finalize` builds; every other published dictionary is abstracted as an opaque
payload. -/
inductive PMEvent
  | closing (jobId : JobId)
  | payload (n : Nat)
deriving DecidableEq

/-- One item a subscriber drains from its `asyncio.Queue`: either a real event
or the `None` stream-end sentinel. -/
inductive QItem
  | event (e : PMEvent)
  | endMarker
deriving DecidableEq

/-- The in-memory state of one `ProgressManager` instance.

`queues`, `results`, `history` embed `self._queues`, `self._results`,
`self._history`; `closed` embeds the `self._closed` set (kept duplicate-free);
`qContents` records, per allocated queue identifier, the ordered items put into
that queue; `nextQ` is the allocator for fresh queue identifiers. -/
structure PMState where
  queues : List (JobId × List Nat)
  results : List (JobId × Nat)
  history : List (JobId × List PMEvent)
  closed : List JobId
  qContents : List (Nat × List QItem)
  nextQ : Nat
deriving DecidableEq

/-- The state of a freshly constructed `ProgressManager()`. -/
def initPM : PMState :=
  { queues := [], results := [], history := [], closed := [], qContents := [], nextQ := 0 }

/-- `create_job`: reset the subscription bucket and history for `j`, unmark it
closed, and drop any stale cached result for a recycled identifier. -/
def create_job (s : PMState) (j : JobId) : PMState :=
  { s with
      queues := aset s.queues j []
      history := aset s.history j []
      closed := s.closed.filter (fun x => x != j)
      results := aremove s.results j }

/-- Put one item into every queue of `qs`, in list order
(`asyncio.gather(*(queue.put(item) for queue in queues))`). -/
def pushAll (qc : List (Nat × List QItem)) (qs : List Nat) (it : QItem) :
    List (Nat × List QItem) :=
  qs.foldl (fun acc q => aset acc q ((alookup acc q).getD [] ++ [it])) qc

/-- `subscribe`: `None` when the job id is unknown (`job_id not in
self._history`); otherwise allocate a fresh queue, append it to the job's
watcher list, replay the entire current history into it, and, when the job is
already closed, follow the replay with the stream-end sentinel.  The lock-free
statements after the critical section contain no suspension point (puts into a
fresh unbounded queue never block), so the whole method is one atomic step. -/
def subscribe (s : PMState) (j : JobId) : Option Nat × PMState :=
  match alookup s.history j with
  | none => (none, s)
  | some h =>
    let q := s.nextQ
    let watchers := (alookup s.queues j).getD []
    let content := h.map QItem.event ++ (if j ∈ s.closed then [QItem.endMarker] else [])
    (some q,
      { s with
          queues := aset s.queues j (watchers ++ [q])
          qContents := aset s.qContents q content
          nextQ := q + 1 })

/-- `publish`: no-op when the job id has no history entry; otherwise append the
event to the history and put it into every currently registered subscriber
queue.  Note the source checks only existence, never the closed flag. -/
def publish (s : PMState) (j : JobId) (e : PMEvent) : PMState :=
  match alookup s.history j with
  | none => s
  | some h =>
    let qs := (alookup s.queues j).getD []
    { s with
        history := aset s.history j (h ++ [e])
        qContents := pushAll s.qContents qs (QItem.event e) }

/-- `set_result`: cache the final payload for a job id. -/
def set_result (s : PMState) (j : JobId) (v : Nat) : PMState :=
  { s with results := aset s.results j v }

/-- `get_result`: read the cached payload, `None` when absent. -/
def get_result (s : PMState) (j : JobId) : Option Nat :=
  alookup s.results j

/-- `finalize`: build the closing event; append it to the history when the job
has one; mark the job closed; then put the closing event into every registered
queue followed by the `None` sentinel.  The source performs no
already-closed check before any of this. -/
def finalize (s : PMState) (j : JobId) : PMState :=
  let closing := PMEvent.closing j
  let history' := match alookup s.history j with
    | none => s.history
    | some h => aset s.history j (h ++ [closing])
  let qs := (alookup s.queues j).getD []
  let closed' := if j ∈ s.closed then s.closed else s.closed ++ [j]
  let qc := pushAll s.qContents qs (QItem.event closing)
  { s with
      history := history'
      closed := closed'
      qContents := pushAll qc qs QItem.endMarker }

/-- `discard(job_id)` with no queue argument: pop the watcher list, the
history, the cached result, and the closed mark for the job. -/
def discard_all (s : PMState) (j : JobId) : PMState :=
  { s with
      queues := aremove s.queues j
      history := aremove s.history j
      results := aremove s.results j
      closed := s.closed.filter (fun x => x != j) }

/-- Remove the first occurrence of `q` (`list.remove`). -/
def removeFirst (l : List Nat) (q : Nat) : List Nat :=
  match l with
  | [] => []
  | x :: t => if x = q then t else x :: removeFirst t q

/-- `discard(job_id, queue)` with a queue argument: remove that one subscriber
queue from the watcher list when present; history, cached result and closed
mark are untouched.  (The final `self._queues[job_id] = []` statement of the
source re-assigns an already empty list and has no observable effect.) -/
def discard_queue (s : PMState) (j : JobId) (q : Nat) : PMState :=
  match alookup s.queues j with
  | none => s
  | some ws =>
    if ws.isEmpty then s
    else if ws.contains q then { s with queues := aset s.queues j (removeFirst ws q) }
    else s

/-- `forget`: pop the cached result, the history, the watcher list and the
closed mark. -/
def forget (s : PMState) (j : JobId) : PMState :=
  { s with
      results := aremove s.results j
      history := aremove s.history j
      queues := aremove s.queues j
      closed := s.closed.filter (fun x => x != j) }

/-- One registry call, for reasoning about call sequences. -/
inductive POp
  | create (j : JobId)
  | publish (j : JobId) (e : PMEvent)
  | finalize (j : JobId)
  | subscribe (j : JobId)
  | setResult (j : JobId) (v : Nat)
  | discardAll (j : JobId)
  | discardQ (j : JobId) (q : Nat)
  | forget (j : JobId)
deriving DecidableEq

/-- The job id an operation addresses. -/
def POp.job : POp → JobId
  | .create j => j
  | .publish j _ => j
  | .finalize j => j
  | .subscribe j => j
  | .setResult j _ => j
  | .discardAll j => j
  | .discardQ j _ => j
  | .forget j => j

/-- Apply one call to the registry state (the queue handle returned by
`subscribe` is dropped here; theorems recover it as `s.nextQ`). -/
def applyOp (s : PMState) : POp → PMState
  | .create j => create_job s j
  | .publish j e => publish s j e
  | .finalize j => finalize s j
  | .subscribe j => (subscribe s j).2
  | .setResult j v => set_result s j v
  | .discardAll j => discard_all s j
  | .discardQ j q => discard_queue s j q
  | .forget j => forget s j

/-- Run a sequence of registry calls. -/
def runOps (s : PMState) (ops : List POp) : PMState :=
  ops.foldl applyOp s

/-- The ordered items put into queue `q` so far. -/
def qView (s : PMState) (q : Nat) : List QItem :=
  (alookup s.qContents q).getD []

/-- The events of the `publish j _` calls of a call sequence, in order. -/
def pubsFor (j : JobId) (ops : List POp) : List PMEvent :=
  ops.filterMap (fun o => match o with
    | .publish j' e => if j' = j then some e else none
    | _ => none)

end PS

/-! ## Pipeline orchestration (`backend/agents/manager.py`) -/

namespace Pipeline

/-- A parsed input document.  `data` is an opaque nested mapping in the
source; the embedding keeps exactly the fields the orchestration code reads or
writes: `data["text"]` (written by the OCR stage), `data["metadata"]["regime"]`
(defaulted before fan-out), and the item list of which only the length feeds a
KPI here (item values are floats, outside this embedding). -/
structure Doc where
  id : Option String
  name : Option String
  kind : String
  dataText : Option String
  regime : Option String
  dataRegime : Option String
  itens : Nat
deriving DecidableEq

/-- A finished `StageLog` entry as appended by `append_stage` (only terminal
entries are ever appended; `to_dict` timing fields are modelled separately by
`stageTimes`).  `detailsError` is `details["error"]`, `detailsReason` is
`details["reason"]`. -/
structure StageEv where
  stage : String
  status : String
  detailsError : Option String
  detailsReason : Option String
deriving DecidableEq

/-- The external stage collaborators and the synchronous enrichment step,
opaque per the interface contract: each either returns a value or fails with a
message (`Except.error` embeds a raised exception). `enrich_with_xai` receives
the audit result and a context drawn from the classifier and accountant
results. -/
structure Collab (A C T X : Type) where
  run_ocr : Doc → Except String (Option String)
  audit : Doc → Except String A
  classify : Doc → Except String C
  compute : Doc → Except String T
  enrich_with_xai : A → C → T → X

/-- A per-document report as assembled at the end of
`_process_single_document`. -/
structure Report (A C T X : Type) where
  documentId : String
  title : String
  kpiItens : Nat
  classification : C
  taxes : T
  compliance : X
  logs : List StageEv
deriving DecidableEq

/-- The per-document `doc_log` dictionary. -/
structure DocLog where
  document_id : String
  name : Option String
  events : List StageEv
deriving DecidableEq

/-- Outcome of processing one document: the returned value (or the propagated
exception) together with the event log.  The log is observable even on the
error path: `append_stage` also forwards each entry to the process logger
before `_run_stage` re-raises. -/
structure ProcOut (A C T X : Type) where
  result : Except String (Report A C T X)
  docLog : DocLog

/-- `_run_stage` without the timing fields: run the collaborator under the
inner semaphore; on success the `StageLog` is finalized `completed`, on
exception it is finalized `failed` with `details["error"]` set to the message
and the exception re-raised.  The `finally` block appends the entry exactly
once on either path. -/
def run_stage (name : String) (work : Except String α) : Except String α × StageEv :=
  match work with
  | .ok r => (.ok r, ⟨name, "completed", none, none⟩)
  | .error e => (.error e, ⟨name, "failed", some e, none⟩)

/-- The `skipped` OCR entry appended when `doc["kind"]` is not PDF/IMAGE. -/
def skippedOcrEv : StageEv := ⟨"ocr", "skipped", none, some "document-type"⟩

/-- The fan-out step of `_process_single_document`: launch the
`auditoria`/`classificacao`/`contabilidade` stage tasks concurrently and await
them with `asyncio.gather` (no `return_exceptions`): a failing task's
exception re-raises out of the `await`, while the sibling tasks still run to
completion and append their own events — so all three events are always in
the log (the embedding fixes the propagated error to the first failing task
in creation order).  On full success, assemble the report dictionary. -/
def fanout (c : Collab A C T X) (document_id : String) (origName : Option String)
    (doc2 : Doc) (evs0 : List StageEv) : ProcOut A C T X :=
  let (ra, ea) := run_stage "auditoria" (c.audit doc2)
  let (rc, ec) := run_stage "classificacao" (c.classify doc2)
  let (rt, et) := run_stage "contabilidade" (c.compute doc2)
  let evs := evs0 ++ [ea, ec, et]
  match ra, rc, rt with
  | .ok a, .ok cl, .ok t =>
    let compliance := c.enrich_with_xai a cl t
    ⟨.ok
      { documentId := document_id
        title := "Relatório - " ++ doc2.name.getD document_id
        kpiItens := doc2.itens
        classification := cl
        taxes := t
        compliance := compliance
        logs := evs },
      ⟨document_id, origName, evs⟩⟩
  | .error e, _, _ => ⟨.error e, ⟨document_id, origName, evs⟩⟩
  | .ok _, .error e, _ => ⟨.error e, ⟨document_id, origName, evs⟩⟩
  | .ok _, .ok _, .error e => ⟨.error e, ⟨document_id, origName, evs⟩⟩

/-- `data["metadata"].setdefault("regime", doc.get("regime") or
"simples_nacional")` — a normalization step, not a stage. -/
def defaultRegime (doc : Doc) : Doc :=
  { doc with dataRegime := some (doc.dataRegime.getD (doc.regime.getD "simples_nacional")) }

/-- `_process_single_document` for one document under the batch semaphore:

1. `document_id = doc.get("id") or str(uuid.uuid4())` — `fresh` supplies the
   generated identifier;
2. conditional OCR stage for PDF/IMAGE kinds (merging the text into
   `data["text"]`), else one `skipped` event with reason `document-type` and
   no collaborator call;
3. regime defaulting, then the three-stage fan-out. -/
def process_single_document (c : Collab A C T X) (fresh : String) (doc : Doc) :
    ProcOut A C T X :=
  let document_id := doc.id.getD fresh
  if doc.kind = "PDF" ∨ doc.kind = "IMAGE" then
    match run_stage "ocr" (c.run_ocr doc) with
    | (.ok text, ev) =>
      fanout c document_id doc.name (defaultRegime { doc with dataText := text }) [ev]
    | (.error e, ev) => ⟨.error e, ⟨document_id, doc.name, [ev]⟩⟩
  else
    fanout c document_id doc.name (defaultRegime doc) [skippedOcrEv]

/-- The generated identifier supplied for the document at input index `i`
(`str(uuid.uuid4())` — fresh and never reused within a run). -/
def freshId (i : Nat) : String := "uuid-" ++ toString i

/-- The per-document outcomes of a batch, one per input document in input
order (`asyncio.gather` keeps result slots in argument order). -/
def pipelineOuts (c : Collab A C T X) (docs : List Doc) : List (ProcOut A C T X) :=
  ((List.range docs.length).zip docs).map
    (fun p => process_single_document c (freshId p.1) p.2)

/-- The exception `await asyncio.gather(...)` propagates when some per-document
task raises (none when all succeed). -/
def firstErr (outs : List (ProcOut A C T X)) : Option String :=
  outs.findSome? (fun o => match o.result with
    | .error e => some e
    | .ok _ => none)

/-- The value returned by `process_documents_pipeline`. -/
structure PipelineResult (A C T X G : Type) where
  reports : List (Report A C T X)
  logs : List DocLog
  aggregated : G

/-- `process_documents_pipeline`: gather one `_process_single_document` task
per input document over a shared batch semaphore; a failing task's exception
propagates out of the `await` (no `return_exceptions=True`, no try/except), so
the reports/logs lists are built only when every document succeeded; otherwise
the call raises.  `agg` is the external `accountant_agent` aggregator. -/
def process_documents_pipeline (c : Collab A C T X)
    (agg : List (Report A C T X) → G) (docs : List Doc) :
    Except String (PipelineResult A C T X G) :=
  let outs := pipelineOuts c docs
  match firstErr outs with
  | some e => .error e
  | none =>
    let reports := outs.filterMap (fun o => o.result.toOption)
    .ok { reports := reports, logs := outs.map (·.docLog), aggregated := agg reports }

/-! ### Completion-order model of `asyncio.gather`

`gather` runs its tasks concurrently — they complete in a nondeterministic
order — yet fills the result list by argument position.  `gatherSched` executes
the already-determined task outcomes in an arbitrary completion order `order`
and stores each in its input slot. -/

def gatherSched (order : List Nat) (tasks : List α) : List (Option α) :=
  order.foldl
    (fun acc k => match tasks.get? k with
      | some v => acc.set k (some v)
      | none => acc)
    (List.replicate tasks.length none)

/-! ### Batch semaphore (`asyncio.Semaphore(ASYNC_BATCH_SIZE)`) -/

/-- `ASYNC_BATCH_SIZE = max(1, settings.MAX_CONCURRENT_TASKS)`. -/
def ASYNC_BATCH_SIZE (maxConcurrentTasks : Nat) : Nat := max 1 maxConcurrentTasks

/-- `settings.MAX_CONCURRENT_TASKS` when the environment leaves it unset. -/
def MAX_CONCURRENT_TASKS_default : Nat := 8

/-- Counting-semaphore transitions of capacity `k`, on the number of holders:
`async with semaphore` blocks while `k` slots are taken and always releases a
held slot. -/
inductive SemStep (k : Nat) : Nat → Nat → Prop
  | acquire {h : Nat} : h < k → SemStep k h (h + 1)
  | release {h : Nat} : 0 < h → SemStep k h (h - 1)

/-- Holder counts reachable from an idle semaphore. -/
def SemReachable (k : Nat) (h : Nat) : Prop :=
  Relation.ReflTransGen (SemStep k) 0 h

/-! ### Order of effects inside `_run_stage`

`_run_stage` executes, in program order: enter `async with semaphore_inner`
(a suspension point while no slot is free), construct the `StageLog` with
`started_at = time.time()`, await the collaborator, then in `finally` set
`finished_at = time.time()` and append the entry, and finally release the
slot when the `async with` block exits. -/

inductive StageAction
  | semAcquire
  | recordStart
  | invokeWork
  | recordFinish
  | appendEvent
  | semRelease
deriving DecidableEq

/-- The actions of one `_run_stage` call in program order. -/
def runStageActions : List StageAction :=
  [.semAcquire, .recordStart, .invokeWork, .recordFinish, .appendEvent, .semRelease]

/-- Wall-clock advance of each action when the call spends `wait` seconds
queued for a semaphore slot and `workDur` seconds in the collaborator. -/
def actionClock (wait workDur : Nat) (t : Nat) : StageAction → Nat
  | .semAcquire => t + wait
  | .invokeWork => t + workDur
  | _ => t

/-- Run the action list from invocation time `0`, recording the clock at
`recordStart` and at `recordFinish`: the pair `(started_at, finished_at)`. -/
def stageTimes (wait workDur : Nat) : Nat × Nat :=
  (runStageActions.foldl
    (fun (acc : Nat × Nat × Nat) a =>
      let t' := actionClock wait workDur acc.1 a
      match a with
      | .recordStart => (t', t', acc.2.2)
      | .recordFinish => (t', acc.2.1, t')
      | _ => (t', acc.2.1, acc.2.2))
    (0, 0, 0)).2

/-- `duration = finished_at - started_at` as computed by `StageLog.to_dict`. -/
def stageDuration (wait workDur : Nat) : Nat :=
  (stageTimes wait workDur).2 - (stageTimes wait workDur).1

end Pipeline

/-! ## Concrete fixtures for counterexamples and witnesses -/

namespace Fix

open Pipeline

/-- A structured (non-OCR) document with a given id. -/
def sdoc (i : String) : Doc :=
  { id := some i, name := some ("doc-" ++ i), kind := "NFE_XML",
    dataText := none, regime := none, dataRegime := none, itens := 2 }

/-- Collaborators whose audit stage raises `"boom"` exactly on document
`"d0"`; everything else succeeds. -/
def collabBoom : Collab Nat Nat Nat Nat :=
  { run_ocr := fun _ => .ok (some "txt")
    audit := fun d => if d.id = some "d0" then .error "boom" else .ok 10
    classify := fun _ => .ok 20
    compute := fun _ => .ok 30
    enrich_with_xai := fun a c t => a + c + t }

/-- Fully succeeding collaborators. -/
def collabOk : Collab Nat Nat Nat Nat :=
  { run_ocr := fun _ => .ok (some "txt")
    audit := fun _ => .ok 10
    classify := fun _ => .ok 20
    compute := fun _ => .ok 30
    enrich_with_xai := fun a c t => a + c + t }

/-- A deterministic stand-in for the external aggregator. -/
def aggLen : List (Report Nat Nat Nat Nat) → Nat := fun rs => rs.length

end Fix

/-! ## Call-protocol predicates

The job API drives one job through `create_job`, then publishes from the
running pipeline task, then calls `finalize` exactly once in a `finally`
block; subscribers may join at any time.  The predicates below delimit those
call shapes for the per-job delivery theorems. -/

namespace PS

/-- Calls on job `j` that may occur while the job is open, before its single
`finalize`: publishes, further subscriptions, result caching. -/
def allowedOpen (j : JobId) : POp → Bool
  | .publish j' _ => j' == j
  | .subscribe j' => j' == j
  | .setResult j' _ => j' == j
  | _ => false

/-- Calls on job `j` after its `finalize`: late subscriptions and result
caching only (nothing is published to a closed job by the job API). -/
def allowedTail (j : JobId) : POp → Bool
  | .subscribe j' => j' == j
  | .setResult j' _ => j' == j
  | _ => false

/-- An arbitrary call addressing job `j`. -/
def onJob (j : JobId) (op : POp) : Bool := op.job == j

end PS

/-! # Theorems

First the shared bookkeeping lemmas, then one theorem per specification
claim (with witnesses and counterexamples where applicable). -/

theorem alookup_aset_self [DecidableEq κ] (l : List (κ × α)) (k : κ) (v : α) :
    alookup (aset l k v) k = some v := by
  induction l with
  | nil => simp [aset, alookup]
  | cons p t ih =>
    obtain ⟨k', v'⟩ := p
    by_cases h : k' = k
    · simp [aset, alookup, h]
    · simp [aset, alookup, h, ih]

theorem alookup_aset_ne [DecidableEq κ] (l : List (κ × α)) (k k' : κ) (v : α)
    (h : k ≠ k') : alookup (aset l k v) k' = alookup l k' := by
  induction l with
  | nil => simp [aset, alookup, h]
  | cons p t ih =>
    obtain ⟨k₀, v₀⟩ := p
    by_cases h₀ : k₀ = k
    · subst h₀
      simp [aset, alookup, h]
    · simp [aset, alookup, h₀, ih]

theorem alookup_aremove_self [DecidableEq κ] (l : List (κ × α)) (k : κ) :
    alookup (aremove l k) k = none := by
  induction l with
  | nil => simp [aremove, alookup]
  | cons p t ih =>
    obtain ⟨k₀, v₀⟩ := p
    by_cases h₀ : k₀ = k
    · simp [aremove, h₀, ih]
    · simp [aremove, alookup, h₀, ih]

namespace PS

theorem runOps_append (s : PMState) (a b : List POp) :
    runOps s (a ++ b) = runOps (runOps s a) b := by
  simp [runOps, List.foldl_append]

theorem runOps_cons (s : PMState) (op : POp) (b : List POp) :
    runOps s (op :: b) = runOps (applyOp s op) b := rfl

theorem pushAll_lookup_of_not_mem (qc : List (Nat × List QItem)) (qs : List Nat)
    (it : QItem) (q : Nat) (h : q ∉ qs) :
    alookup (pushAll qc qs it) q = alookup qc q := by
  induction qs generalizing qc with
  | nil => rfl
  | cons a t ih =>
    have ha : a ≠ q := fun e => h (e ▸ List.mem_cons_self a t)
    have ht : q ∉ t := fun m => h (List.mem_cons_of_mem _ m)
    have hstep : pushAll qc (a :: t) it =
        pushAll (aset qc a ((alookup qc a).getD [] ++ [it])) t it := rfl
    rw [hstep, ih _ ht, alookup_aset_ne _ _ _ _ ha]

theorem pushAll_lookup_once (qc : List (Nat × List QItem)) (it : QItem) (q : Nat)
    (l1 l2 : List Nat) (h1 : q ∉ l1) (h2 : q ∉ l2) :
    alookup (pushAll qc (l1 ++ q :: l2) it) q =
      some ((alookup qc q).getD [] ++ [it]) := by
  induction l1 generalizing qc with
  | nil =>
    simp only [List.nil_append]
    have hstep : pushAll qc (q :: l2) it =
        pushAll (aset qc q ((alookup qc q).getD [] ++ [it])) l2 it := rfl
    rw [hstep, pushAll_lookup_of_not_mem _ _ _ _ h2, alookup_aset_self]
  | cons a t ih =>
    have ha : a ≠ q := fun e => h1 (e ▸ List.mem_cons_self a t)
    have ht : q ∉ t := fun m => h1 (List.mem_cons_of_mem _ m)
    have hstep : pushAll qc ((a :: t) ++ q :: l2) it =
        pushAll (aset qc a ((alookup qc a).getD [] ++ [it])) (t ++ q :: l2) it := rfl
    rw [hstep, ih _ ht, alookup_aset_ne _ _ _ _ ha]

end PS

namespace PS

theorem mem_removeFirst {x a : Nat} {l : List Nat} (h : x ∈ removeFirst l a) : x ∈ l := by
  induction l with
  | nil => simp [removeFirst] at h
  | cons b t ih =>
    by_cases hb : b = a
    · rw [removeFirst, if_pos hb] at h
      exact List.mem_cons_of_mem _ h
    · rw [removeFirst, if_neg hb] at h
      rcases List.mem_cons.mp h with h | h
      · exact h ▸ List.mem_cons_self _ _
      · exact List.mem_cons_of_mem _ (ih h)

/-- A queue identifier that is not registered for job `j` (and is older than
the allocator) stays unregistered across any single call on `j`, and its
contents never change. -/
theorem applyOp_frozen (j : JobId) (q : Nat) (op : POp) (hop : op.job = j) (s : PMState)
    (h1 : q ∉ (alookup s.queues j).getD []) (h2 : q < s.nextQ) :
    q ∉ (alookup (applyOp s op).queues j).getD [] ∧ q < (applyOp s op).nextQ ∧
      qView (applyOp s op) q = qView s q := by
  cases op with
  | create j₀ =>
    have hj : j = j₀ := hop.symm
    subst hj
    exact ⟨by simp [applyOp, create_job, alookup_aset_self], h2, rfl⟩
  | publish j₀ e =>
    have hj : j = j₀ := hop.symm
    subst hj
    simp only [applyOp, publish]
    cases hh : alookup s.history j with
    | none => exact ⟨h1, h2, rfl⟩
    | some h =>
      refine ⟨h1, h2, ?_⟩
      show (alookup (pushAll s.qContents ((alookup s.queues j).getD []) (QItem.event e)) q).getD [] = qView s q
      rw [pushAll_lookup_of_not_mem _ _ _ _ h1]
      rfl
  | finalize j₀ =>
    have hj : j = j₀ := hop.symm
    subst hj
    simp only [applyOp, finalize]
    refine ⟨h1, h2, ?_⟩
    show (alookup (pushAll (pushAll s.qContents ((alookup s.queues j).getD []) (QItem.event (PMEvent.closing j))) ((alookup s.queues j).getD []) QItem.endMarker) q).getD [] = qView s q
    rw [pushAll_lookup_of_not_mem _ _ _ _ h1, pushAll_lookup_of_not_mem _ _ _ _ h1]
    rfl
  | subscribe j₀ =>
    have hj : j = j₀ := hop.symm
    subst hj
    simp only [applyOp, subscribe]
    cases hh : alookup s.history j with
    | none => exact ⟨h1, h2, rfl⟩
    | some h =>
      refine ⟨?_, Nat.lt_succ_of_lt h2, ?_⟩
      · show q ∉ (alookup (aset s.queues j ((alookup s.queues j).getD [] ++ [s.nextQ])) j).getD []
        rw [alookup_aset_self]
        simp only [Option.getD_some, List.mem_append, List.mem_singleton]
        rintro (hm | hm)
        · exact h1 hm
        · exact absurd hm.symm (Nat.ne_of_gt h2)
      · show (alookup (aset s.qContents s.nextQ _) q).getD [] = qView s q
        rw [alookup_aset_ne _ _ _ _ (Nat.ne_of_gt h2)]
        rfl
  | setResult j₀ v => exact ⟨h1, h2, rfl⟩
  | discardAll j₀ =>
    have hj : j = j₀ := hop.symm
    subst hj
    exact ⟨by simp [applyOp, discard_all, alookup_aremove_self], h2, rfl⟩
  | discardQ j₀ q' =>
    have hj : j = j₀ := hop.symm
    subst hj
    simp only [applyOp, discard_queue]
    cases hw : alookup s.queues j with
    | none => exact ⟨h1, h2, rfl⟩
    | some ws =>
      dsimp only
      rw [hw] at h1
      simp only [Option.getD_some] at h1
      by_cases he : ws.isEmpty = true
      · rw [if_pos he]
        exact ⟨by rw [hw]; simpa using h1, h2, rfl⟩
      · rw [if_neg he]
        by_cases hc : ws.contains q' = true
        · rw [if_pos hc]
          refine ⟨?_, h2, rfl⟩
          show q ∉ (alookup (aset s.queues j (removeFirst ws q')) j).getD []
          rw [alookup_aset_self]
          simp only [Option.getD_some]
          exact fun hm => h1 (mem_removeFirst hm)
        · rw [if_neg hc]
          exact ⟨by rw [hw]; simpa using h1, h2, rfl⟩
  | forget j₀ =>
    have hj : j = j₀ := hop.symm
    subst hj
    exact ⟨by simp [applyOp, forget, alookup_aremove_self], h2, rfl⟩

/-- Iterated version of `applyOp_frozen` over any sequence of calls on `j`. -/
theorem runOps_frozen (j : JobId) (q : Nat) (ops : List POp)
    (hops : ops.all (onJob j) = true) :
    ∀ s : PMState, q ∉ (alookup s.queues j).getD [] → q < s.nextQ →
      qView (runOps s ops) q = qView s q := by
  induction ops with
  | nil => intro s _ _; rfl
  | cons op rest ih =>
    intro s h1 h2
    rw [List.all_cons, Bool.and_eq_true] at hops
    have hj : op.job = j := by
      have := hops.1
      simpa [onJob] using this
    obtain ⟨f1, f2, f3⟩ := applyOp_frozen j q op hj s h1 h2
    rw [runOps_cons, ih hops.2 _ f1 f2, f3]

end PS

namespace PS

theorem publish_effects (s : PMState) (j : JobId) (e : PMEvent) (h : List PMEvent)
    (hh : alookup s.history j = some h) :
    (publish s j e).queues = s.queues ∧ (publish s j e).nextQ = s.nextQ ∧
      alookup (publish s j e).history j = some (h ++ [e]) := by
  refine ⟨?_, ?_, ?_⟩ <;> simp [publish, hh, alookup_aset_self]

/-- A queue registered exactly once for `j` receives exactly one copy of a
published event, appended after its current contents. -/
theorem publish_qView_mem (s : PMState) (j : JobId) (e : PMEvent) (h : List PMEvent)
    (hh : alookup s.history j = some h) (q : Nat) (l1 l2 : List Nat)
    (hw : (alookup s.queues j).getD [] = l1 ++ q :: l2) (hq1 : q ∉ l1) (hq2 : q ∉ l2) :
    qView (publish s j e) q = qView s q ++ [QItem.event e] := by
  simp only [publish, hh, qView]
  rw [hw, pushAll_lookup_once _ _ _ _ _ hq1 hq2]
  simp only [Option.getD_some]

/-- `finalize` delivers the closing event then the end sentinel, exactly once
each, to a queue registered exactly once. -/
theorem finalize_qView_mem (s : PMState) (j : JobId) (q : Nat) (l1 l2 : List Nat)
    (hw : (alookup s.queues j).getD [] = l1 ++ q :: l2) (hq1 : q ∉ l1) (hq2 : q ∉ l2) :
    qView (finalize s j) q =
      qView s q ++ [QItem.event (PMEvent.closing j), QItem.endMarker] ∧
      (finalize s j).nextQ = s.nextQ := by
  refine ⟨?_, rfl⟩
  simp only [finalize, qView]
  rw [hw, pushAll_lookup_once _ _ _ _ _ hq1 hq2]
  simp only [Option.getD_some]
  rw [pushAll_lookup_once _ _ _ _ _ hq1 hq2]
  simp only [Option.getD_some, List.append_assoc, List.singleton_append]

theorem subscribe_effects (s : PMState) (j : JobId) (h : List PMEvent)
    (hh : alookup s.history j = some h) :
    (subscribe s j).1 = some s.nextQ ∧
      ((subscribe s j).2).history = s.history ∧
      alookup ((subscribe s j).2).queues j =
        some ((alookup s.queues j).getD [] ++ [s.nextQ]) ∧
      qView (subscribe s j).2 s.nextQ =
        h.map QItem.event ++ (if j ∈ s.closed then [QItem.endMarker] else []) ∧
      ((subscribe s j).2).nextQ = s.nextQ + 1 ∧
      ((subscribe s j).2).closed = s.closed := by
  refine ⟨?_, ?_, ?_, ?_, ?_, ?_⟩ <;>
    simp [subscribe, hh, qView, alookup_aset_self]

theorem pubsFor_append (j : JobId) (a b : List POp) :
    pubsFor j (a ++ b) = pubsFor j a ++ pubsFor j b := by
  simp [pubsFor, List.filterMap_append]

theorem pubsFor_tail_nil (j : JobId) (ops : List POp)
    (h : ops.all (allowedTail j) = true) : pubsFor j ops = [] := by
  induction ops with
  | nil => rfl
  | cons op rest ih =>
    rw [List.all_cons, Bool.and_eq_true] at h
    cases op with
    | subscribe j' => simpa [pubsFor, List.filterMap_cons] using ih h.2
    | setResult j' v => simpa [pubsFor, List.filterMap_cons] using ih h.2
    | publish j' e => simp [allowedTail] at h
    | create j' => simp [allowedTail] at h
    | finalize j' => simp [allowedTail] at h
    | discardAll j' => simp [allowedTail] at h
    | discardQ j' q' => simp [allowedTail] at h
    | forget j' => simp [allowedTail] at h

/-- Tail phase after closure: late subscriptions and result caching leave an
existing queue's contents untouched. -/
theorem runOps_tail_phase (j : JobId) (q : Nat) (ops : List POp) :
    ops.all (allowedTail j) = true → ∀ s : PMState, q < s.nextQ →
      qView (runOps s ops) q = qView s q ∧ q < (runOps s ops).nextQ := by
  induction ops with
  | nil => exact fun _ s h2 => ⟨rfl, h2⟩
  | cons op rest ih =>
    intro hall s h2
    rw [List.all_cons, Bool.and_eq_true] at hall
    cases op with
    | subscribe j' =>
      rw [runOps_cons]
      simp only [applyOp]
      cases hh : alookup s.history j' with
      | none =>
        have : (subscribe s j').2 = s := by simp [subscribe, hh]
        rw [this]
        exact ih hall.2 s h2
      | some h =>
        have hres := ih hall.2 ((subscribe s j').2) (by simp [subscribe, hh]; exact Nat.lt_succ_of_lt h2)
        refine ⟨?_, hres.2⟩
        rw [hres.1]
        show (alookup ((subscribe s j').2).qContents q).getD [] = qView s q
        simp only [subscribe, hh]
        rw [alookup_aset_ne _ _ _ _ (Nat.ne_of_gt h2)]
        rfl
    | setResult j' v =>
      rw [runOps_cons]
      have hres := ih hall.2 (set_result s j' v) h2
      exact ⟨hres.1, hres.2⟩
    | publish j' e => simp [allowedTail] at hall
    | create j' => simp [allowedTail] at hall
    | finalize j' => simp [allowedTail] at hall
    | discardAll j' => simp [allowedTail] at hall
    | discardQ j' q' => simp [allowedTail] at hall
    | forget j' => simp [allowedTail] at hall

end PS

namespace PS

/-- Open phase: across publishes, further subscriptions and result caching, a
queue registered exactly once for `j` receives exactly the published events,
in publish order, with the registration invariants maintained. -/
theorem runOps_open_phase (j : JobId) (q : Nat) (ops : List POp) :
    ops.all (allowedOpen j) = true → ∀ s : PMState,
      (alookup s.history j).isSome = true →
      (∃ l1 l2, (alookup s.queues j).getD [] = l1 ++ q :: l2 ∧ q ∉ l1 ∧ q ∉ l2) →
      q < s.nextQ →
      qView (runOps s ops) q = qView s q ++ (pubsFor j ops).map QItem.event ∧
        (∃ l1 l2, (alookup (runOps s ops).queues j).getD [] = l1 ++ q :: l2 ∧
          q ∉ l1 ∧ q ∉ l2) ∧
        q < (runOps s ops).nextQ := by
  induction ops with
  | nil => exact fun _ s hh hw h2 => ⟨by simp [pubsFor, runOps], hw, h2⟩
  | cons op rest ih =>
    intro hall s hh hw h2
    rw [List.all_cons, Bool.and_eq_true] at hall
    obtain ⟨l1, l2, hwq, hq1, hq2⟩ := hw
    cases op with
    | publish j' e =>
      have hj : j = j' := by
        have := hall.1
        simp only [allowedOpen, beq_iff_eq] at this
        exact this.symm
      subst hj
      obtain ⟨h, hh'⟩ := Option.isSome_iff_exists.mp hh
      obtain ⟨e1, e2, e3⟩ := publish_effects s j e h hh'
      have hres := ih hall.2 (publish s j e)
        (by rw [e3]; rfl)
        (⟨l1, l2, by rw [e1]; exact hwq, hq1, hq2⟩)
        (by rw [e2]; exact h2)
      rw [runOps_cons] at *
      refine ⟨?_, hres.2.1, hres.2.2⟩
      rw [show applyOp s (POp.publish j e) = publish s j e from rfl] at *
      rw [hres.1, publish_qView_mem s j e h hh' q l1 l2 hwq hq1 hq2]
      have hp : pubsFor j (POp.publish j e :: rest) = e :: pubsFor j rest := by
        simp [pubsFor, List.filterMap_cons]
      rw [hp]
      simp [List.append_assoc]
    | subscribe j' =>
      have hj : j = j' := by
        have := hall.1
        simp only [allowedOpen, beq_iff_eq] at this
        exact this.symm
      subst hj
      obtain ⟨h, hh'⟩ := Option.isSome_iff_exists.mp hh
      obtain ⟨f1, f2, f3, f4, f5, f6⟩ := subscribe_effects s j h hh'
      have hwq' : (alookup ((subscribe s j).2).queues j).getD [] =
          l1 ++ q :: (l2 ++ [s.nextQ]) := by
        rw [f3]
        simp only [Option.getD_some]
        rw [hwq]
        simp [List.append_assoc]
      have hq2' : q ∉ l2 ++ [s.nextQ] := by
        simp only [List.mem_append, List.mem_singleton]
        rintro (hm | hm)
        · exact hq2 hm
        · exact absurd hm (Nat.ne_of_lt h2)
      have hview : qView ((subscribe s j).2) q = qView s q := by
        show (alookup ((subscribe s j).2).qContents q).getD [] = qView s q
        simp only [subscribe, hh']
        rw [alookup_aset_ne _ _ _ _ (Nat.ne_of_gt h2)]
        rfl
      have hres := ih hall.2 ((subscribe s j).2)
        (by rw [f2]; exact hh)
        (⟨l1, l2 ++ [s.nextQ], hwq', hq1, hq2'⟩)
        (by rw [f5]; exact Nat.lt_succ_of_lt h2)
      rw [runOps_cons] at *
      refine ⟨?_, hres.2.1, hres.2.2⟩
      rw [show applyOp s (POp.subscribe j) = (subscribe s j).2 from rfl] at *
      rw [hres.1, hview]
      have hp : pubsFor j (POp.subscribe j :: rest) = pubsFor j rest := by
        simp [pubsFor, List.filterMap_cons]
      rw [hp]
    | setResult j' v =>
      have hres := ih hall.2 (set_result s j' v) hh (⟨l1, l2, hwq, hq1, hq2⟩) h2
      rw [runOps_cons]
      refine ⟨?_, hres.2.1, hres.2.2⟩
      rw [show applyOp s (POp.setResult j' v) = set_result s j' v from rfl]
      rw [hres.1]
      have hp : pubsFor j (POp.setResult j' v :: rest) = pubsFor j rest := by
        simp [pubsFor, List.filterMap_cons]
      rw [hp]
      rfl
    | create j' => simp [allowedOpen] at hall
    | finalize j' => simp [allowedOpen] at hall
    | discardAll j' => simp [allowedOpen] at hall
    | discardQ j' q' => simp [allowedOpen] at hall
    | forget j' => simp [allowedOpen] at hall

end PS

/-! ## Claim C2 — exactly-once-per-subscriber delivery -/

/-- C2: for a job with history `h` at subscribe time, a subscriber obtains the
fresh channel and — across the job API's remaining calls (either the job is
already closed and only late subscriptions/result caching follow, or
publishes/subscriptions/caching are followed by the single `finalize` and then
only benign calls) — its channel carries exactly: the history at subscribe
time, then every event published after the subscription in publish order, then
the closing event and exactly one stream-end marker; no duplicates, no gaps.
Replay and live registration act as one atomic step (the embedded `subscribe`
is a single transition, matching the suspension-free method body). -/
theorem C2_subscriber_delivery (s : PS.PMState) (j : PS.JobId) (h : List PS.PMEvent)
    (post : List PS.POp)
    (hh : alookup s.history j = some h)
    (hqf : s.nextQ ∉ (alookup s.queues j).getD [])
    (hcase : (j ∈ s.closed ∧ post.all (PS.allowedTail j) = true) ∨
             (j ∉ s.closed ∧ ∃ a b, post = a ++ PS.POp.finalize j :: b ∧
               a.all (PS.allowedOpen j) = true ∧ b.all (PS.allowedTail j) = true)) :
    (PS.subscribe s j).1 = some s.nextQ ∧
    PS.qView (PS.runOps (PS.subscribe s j).2 post) s.nextQ =
      (if j ∈ s.closed then h.map PS.QItem.event ++ [PS.QItem.endMarker]
       else h.map PS.QItem.event ++ (PS.pubsFor j post).map PS.QItem.event ++
         [PS.QItem.event (PS.PMEvent.closing j), PS.QItem.endMarker]) := by
  obtain ⟨f1, f2, f3, f4, f5, f6⟩ := PS.subscribe_effects s j h hh
  refine ⟨f1, ?_⟩
  rcases hcase with ⟨hc, hall⟩ | ⟨hc, a, b, hpost, ha, hb⟩
  · rw [if_pos hc]
    have ht := PS.runOps_tail_phase j s.nextQ post hall ((PS.subscribe s j).2)
      (by rw [f5]; exact Nat.lt_succ_self _)
    rw [ht.1, f4, if_pos hc]
  · rw [if_neg hc]
    subst hpost
    have hpre1 : (alookup ((PS.subscribe s j).2).history j).isSome = true := by
      rw [f2, hh]
      rfl
    have hpre2 : ∃ l1 l2, (alookup ((PS.subscribe s j).2).queues j).getD [] =
        l1 ++ s.nextQ :: l2 ∧ s.nextQ ∉ l1 ∧ s.nextQ ∉ l2 := by
      refine ⟨(alookup s.queues j).getD [], [], ?_, hqf, by simp⟩
      rw [f3]
      rfl
    have hpre3 : s.nextQ < ((PS.subscribe s j).2).nextQ := by
      rw [f5]
      exact Nat.lt_succ_self _
    have hA := PS.runOps_open_phase j s.nextQ a ha ((PS.subscribe s j).2) hpre1 hpre2 hpre3
    obtain ⟨l1, l2, hwA, hA1, hA2⟩ := hA.2.1
    rw [PS.runOps_append, PS.runOps_cons]
    have hF := PS.finalize_qView_mem (PS.runOps ((PS.subscribe s j).2) a) j s.nextQ
      l1 l2 hwA hA1 hA2
    have hfin : PS.applyOp (PS.runOps ((PS.subscribe s j).2) a) (PS.POp.finalize j) =
        PS.finalize (PS.runOps ((PS.subscribe s j).2) a) j := rfl
    have hT := PS.runOps_tail_phase j s.nextQ b hb
      (PS.applyOp (PS.runOps ((PS.subscribe s j).2) a) (PS.POp.finalize j))
      (by rw [hfin, hF.2]; exact hA.2.2)
    rw [hT.1, hfin, hF.1, hA.1, f4, if_neg hc]
    have hp : PS.pubsFor j (a ++ PS.POp.finalize j :: b) = PS.pubsFor j a := by
      rw [PS.pubsFor_append]
      have hstep : PS.pubsFor j (PS.POp.finalize j :: b) = PS.pubsFor j b := by
        simp [PS.pubsFor, List.filterMap_cons]
      rw [hstep, PS.pubsFor_tail_nil j b hb, List.append_nil]
    rw [hp]
    simp [List.append_assoc]

/-- Witness for C2: a job created with one published event, a subscriber
joining, then one more publish, the finalize, and a late subscriber; the first
subscriber's channel carries exactly both events, the closing event, and one
end marker. -/
theorem C2_subscriber_delivery_witness :
    (PS.subscribe (PS.runOps PS.initPM
        [PS.POp.create "j", PS.POp.publish "j" (PS.PMEvent.payload 1)]) "j").1 =
      some (PS.runOps PS.initPM
        [PS.POp.create "j", PS.POp.publish "j" (PS.PMEvent.payload 1)]).nextQ ∧
    PS.qView (PS.runOps (PS.subscribe (PS.runOps PS.initPM
        [PS.POp.create "j", PS.POp.publish "j" (PS.PMEvent.payload 1)]) "j").2
        [PS.POp.publish "j" (PS.PMEvent.payload 2), PS.POp.finalize "j",
         PS.POp.subscribe "j"])
      (PS.runOps PS.initPM
        [PS.POp.create "j", PS.POp.publish "j" (PS.PMEvent.payload 1)]).nextQ =
      [PS.QItem.event (PS.PMEvent.payload 1), PS.QItem.event (PS.PMEvent.payload 2),
       PS.QItem.event (PS.PMEvent.closing "j"), PS.QItem.endMarker] := by
  have happ := C2_subscriber_delivery
    (PS.runOps PS.initPM [PS.POp.create "j", PS.POp.publish "j" (PS.PMEvent.payload 1)])
    "j" [PS.PMEvent.payload 1]
    [PS.POp.publish "j" (PS.PMEvent.payload 2), PS.POp.finalize "j", PS.POp.subscribe "j"]
    (by decide) (by decide)
    (Or.inr ⟨by decide, [PS.POp.publish "j" (PS.PMEvent.payload 2)],
      [PS.POp.subscribe "j"], rfl, by decide, by decide⟩)
  refine ⟨happ.1, ?_⟩
  rw [happ.2]
  decide

/-! ## Claim C3 — closed-job invariant -/

/-- C3 counterexample: after `create_job`, one subscriber and `finalize`, a
further `publish` on the closed job appends the event to the history and
delivers it to the subscriber's channel after the stream-end marker — the
code accepts events after closure. -/
theorem C3_counterexample :
    alookup (PS.runOps PS.initPM
        [PS.POp.create "j", PS.POp.subscribe "j", PS.POp.finalize "j",
         PS.POp.publish "j" (PS.PMEvent.payload 7)]).history "j" =
      some [PS.PMEvent.closing "j", PS.PMEvent.payload 7] ∧
    PS.qView (PS.runOps PS.initPM
        [PS.POp.create "j", PS.POp.subscribe "j", PS.POp.finalize "j",
         PS.POp.publish "j" (PS.PMEvent.payload 7)]) 0 =
      [PS.QItem.event (PS.PMEvent.closing "j"), PS.QItem.endMarker,
       PS.QItem.event (PS.PMEvent.payload 7)] := by
  decide

/-- C3 as amended: `publish` never consults the closed flag; whenever the
job's history entry still exists — even after `finalize` marked it closed —
publishing appends to the history and delivers to every registered channel.
(The no-events-after-close discipline is maintained only by the callers.) -/
theorem C3_publish_ignores_closed (s : PS.PMState) (j : PS.JobId) (e : PS.PMEvent)
    (h : List PS.PMEvent) (q : Nat) (l1 l2 : List Nat)
    (hclosed : j ∈ s.closed)
    (hh : alookup s.history j = some h)
    (hw : (alookup s.queues j).getD [] = l1 ++ q :: l2)
    (hq1 : q ∉ l1) (hq2 : q ∉ l2) :
    alookup (PS.publish s j e).history j = some (h ++ [e]) ∧
    PS.qView (PS.publish s j e) q = PS.qView s q ++ [PS.QItem.event e] := by
  exact ⟨(PS.publish_effects s j e h hh).2.2,
    PS.publish_qView_mem s j e h hh q l1 l2 hw hq1 hq2⟩

/-- Witness for the amended C3: publishing to the closed job of
`C3_counterexample` appends to history and to the subscriber channel. -/
theorem C3_publish_ignores_closed_witness :
    alookup (PS.publish (PS.runOps PS.initPM
        [PS.POp.create "j", PS.POp.subscribe "j", PS.POp.finalize "j"]) "j"
        (PS.PMEvent.payload 7)).history "j" =
      some ([PS.PMEvent.closing "j"] ++ [PS.PMEvent.payload 7]) ∧
    PS.qView (PS.publish (PS.runOps PS.initPM
        [PS.POp.create "j", PS.POp.subscribe "j", PS.POp.finalize "j"]) "j"
        (PS.PMEvent.payload 7)) 0 =
      PS.qView (PS.runOps PS.initPM
        [PS.POp.create "j", PS.POp.subscribe "j", PS.POp.finalize "j"]) 0 ++
        [PS.QItem.event (PS.PMEvent.payload 7)] :=
  C3_publish_ignores_closed _ "j" (PS.PMEvent.payload 7) [PS.PMEvent.closing "j"]
    0 [] [] (by decide) (by decide) (by decide) (by decide) (by decide)

/-! ## Claim C4 — finalize idempotence -/

/-- C4: the code has no double-closing guard: a second `finalize` on an
already-closed job appends a second closing event to the history and delivers
a second closing event and a second stream-end marker to the subscriber that
already received the marker (evaluated at a concrete job with one
subscriber). -/
theorem C4_double_finalize_duplicates :
    alookup (PS.runOps PS.initPM
        [PS.POp.create "j", PS.POp.subscribe "j", PS.POp.finalize "j",
         PS.POp.finalize "j"]).history "j" =
      some [PS.PMEvent.closing "j", PS.PMEvent.closing "j"] ∧
    PS.qView (PS.runOps PS.initPM
        [PS.POp.create "j", PS.POp.subscribe "j", PS.POp.finalize "j",
         PS.POp.finalize "j"]) 0 =
      [PS.QItem.event (PS.PMEvent.closing "j"), PS.QItem.endMarker,
       PS.QItem.event (PS.PMEvent.closing "j"), PS.QItem.endMarker] := by
  decide

/-! ## Claim C7 — discard and the cached result -/

/-- C7: `discard` with no channel argument pops the cached result (line
`self._results.pop(job_id, None)`), contradicting both the claim and the
method's own docstring: after `discard(id)` the cached result of a job that
had one is gone, and `discard(id)` is extensionally identical to `forget(id)`
on every state. -/
theorem C7_discard_drops_result :
    PS.get_result (PS.set_result (PS.create_job PS.initPM "j") "j" 42) "j" = some 42 ∧
    PS.get_result (PS.discard_all
      (PS.set_result (PS.create_job PS.initPM "j") "j" 42) "j") "j" = none ∧
    (∀ (s : PS.PMState) (j : PS.JobId), PS.discard_all s j = PS.forget s j) := by
  exact ⟨by decide, by decide, fun s j => rfl⟩

/-! ## Claim C10 — create_job on a live job id -/

/-- C10: re-issuing `create_job` for an id that already has a registered
subscriber channel unconditionally resets the watcher list to empty, clears
the history, unmarks the closed flag and drops the cached result; the
pre-existing channel is orphaned — across any further calls on the job it
receives no event and no stream-end marker (its contents never change). -/
theorem C10_create_job_orphans (s : PS.PMState) (j : PS.JobId) (q : Nat)
    (post : List PS.POp)
    (hq : q ∈ (alookup s.queues j).getD []) (hfresh : q < s.nextQ)
    (hpost : post.all (PS.onJob j) = true) :
    alookup (PS.create_job s j).queues j = some [] ∧
    alookup (PS.create_job s j).history j = some [] ∧
    j ∉ (PS.create_job s j).closed ∧
    alookup (PS.create_job s j).results j = none ∧
    PS.qView (PS.runOps (PS.create_job s j) post) q = PS.qView s q := by
  refine ⟨alookup_aset_self _ _ _, alookup_aset_self _ _ _, ?_,
    alookup_aremove_self _ _, ?_⟩
  · simp [PS.create_job, List.mem_filter]
  · have hfrozen := PS.runOps_frozen j q post hpost (PS.create_job s j)
      (by simp [PS.create_job, alookup_aset_self]) hfresh
    rw [hfrozen]
    rfl

/-- Witness for C10: a job with one subscriber and one delivered event; after
`create_job` runs again, a further publish and the finalize leave the old
channel exactly as it was. -/
theorem C10_create_job_orphans_witness :
    alookup (PS.create_job (PS.runOps PS.initPM
      [PS.POp.create "j", PS.POp.subscribe "j",
       PS.POp.publish "j" (PS.PMEvent.payload 1)]) "j").queues "j" = some [] ∧
    alookup (PS.create_job (PS.runOps PS.initPM
      [PS.POp.create "j", PS.POp.subscribe "j",
       PS.POp.publish "j" (PS.PMEvent.payload 1)]) "j").history "j" = some [] ∧
    "j" ∉ (PS.create_job (PS.runOps PS.initPM
      [PS.POp.create "j", PS.POp.subscribe "j",
       PS.POp.publish "j" (PS.PMEvent.payload 1)]) "j").closed ∧
    alookup (PS.create_job (PS.runOps PS.initPM
      [PS.POp.create "j", PS.POp.subscribe "j",
       PS.POp.publish "j" (PS.PMEvent.payload 1)]) "j").results "j" = none ∧
    PS.qView (PS.runOps (PS.create_job (PS.runOps PS.initPM
      [PS.POp.create "j", PS.POp.subscribe "j",
       PS.POp.publish "j" (PS.PMEvent.payload 1)]) "j")
      [PS.POp.publish "j" (PS.PMEvent.payload 2), PS.POp.finalize "j"]) 0 =
      PS.qView (PS.runOps PS.initPM
        [PS.POp.create "j", PS.POp.subscribe "j",
         PS.POp.publish "j" (PS.PMEvent.payload 1)]) 0 :=
  C10_create_job_orphans
    (PS.runOps PS.initPM [PS.POp.create "j", PS.POp.subscribe "j",
      PS.POp.publish "j" (PS.PMEvent.payload 1)]) "j" 0
    [PS.POp.publish "j" (PS.PMEvent.payload 2), PS.POp.finalize "j"]
    (by decide) (by decide) (by decide)


namespace Pipeline

theorem pipelineOuts_length (c : Collab A C T X) (docs : List Doc) :
    (pipelineOuts c docs).length = docs.length := by
  simp [pipelineOuts]

theorem pipelineOuts_getElem (c : Collab A C T X) (docs : List Doc) (i : Nat)
    (hi : i < docs.length) (hi' : i < (pipelineOuts c docs).length) :
    (pipelineOuts c docs)[i] = process_single_document c (freshId i) docs[i] := by
  simp [pipelineOuts, List.getElem_zip, List.getElem_range]

theorem run_stage_stage (name : String) (w : Except String α) :
    ((run_stage name w).2).stage = name := by
  cases w <;> rfl

theorem run_stage_status (name : String) (w : Except String α) :
    ((run_stage name w).2).status = "completed" ∨
      ((run_stage name w).2).status = "failed" := by
  cases w with
  | ok r => exact Or.inl rfl
  | error e => exact Or.inr rfl

theorem fanout_events (c : Collab A C T X) (did : String) (nm : Option String)
    (d : Doc) (evs0 : List StageEv) :
    (fanout c did nm d evs0).docLog.events =
      evs0 ++ [(run_stage "auditoria" (c.audit d)).2,
               (run_stage "classificacao" (c.classify d)).2,
               (run_stage "contabilidade" (c.compute d)).2] := by
  cases ha : c.audit d <;> cases hc : c.classify d <;> cases ht : c.compute d <;>
    simp [fanout, run_stage, ha, hc, ht]

theorem fanout_error_failed_event (c : Collab A C T X) (did : String)
    (nm : Option String) (d : Doc) (evs0 : List StageEv) (m : String)
    (hf : (fanout c did nm d evs0).result = Except.error m) :
    ∃ ev ∈ (fanout c did nm d evs0).docLog.events,
      ev.status = "failed" ∧ ev.detailsError = some m := by
  rw [fanout_events]
  cases ha : c.audit d with
  | error m' =>
    have hm : m' = m := by
      simp [fanout, run_stage, ha] at hf
      exact hf
    subst hm
    refine ⟨⟨"auditoria", "failed", some m', none⟩, ?_, rfl, rfl⟩
    simp [run_stage, ha]
  | ok a =>
    cases hc : c.classify d with
    | error m' =>
      have hm : m' = m := by
        simp [fanout, run_stage, ha, hc] at hf
        exact hf
      subst hm
      refine ⟨⟨"classificacao", "failed", some m', none⟩, ?_, rfl, rfl⟩
      simp [run_stage, hc]
    | ok cl =>
      cases ht : c.compute d with
      | error m' =>
        have hm : m' = m := by
          simp [fanout, run_stage, ha, hc, ht] at hf
          exact hf
        subst hm
        refine ⟨⟨"contabilidade", "failed", some m', none⟩, ?_, rfl, rfl⟩
        simp [run_stage, ht]
      | ok t => simp [fanout, run_stage, ha, hc, ht] at hf

/-- A document whose processing raises has a `failed` stage entry carrying the
propagated error message in its event log. -/
theorem psd_error_failed_event (c : Collab A C T X) (fresh : String) (doc : Doc)
    (m : String)
    (hf : (process_single_document c fresh doc).result = Except.error m) :
    ∃ ev ∈ (process_single_document c fresh doc).docLog.events,
      ev.status = "failed" ∧ ev.detailsError = some m := by
  by_cases hk : doc.kind = "PDF" ∨ doc.kind = "IMAGE"
  · rw [process_single_document, if_pos hk] at hf ⊢
    cases ho : c.run_ocr doc with
    | ok text =>
      rw [ho] at hf
      simp only [run_stage] at hf ⊢
      exact fanout_error_failed_event _ _ _ _ _ _ hf
    | error e =>
      rw [ho] at hf
      simp only [run_stage] at hf ⊢
      have hm : e = m := by simpa using hf
      subst hm
      refine ⟨⟨"ocr", "failed", some e, none⟩, ?_, rfl, rfl⟩
      simp
  · rw [process_single_document, if_neg hk] at hf ⊢
    exact fanout_error_failed_event _ _ _ _ _ _ hf

theorem reports_map_ok (l : List (ProcOut A C T X))
    (h : ∀ o ∈ l, (o.result.toOption).isSome = true) :
    (l.filterMap (fun o => o.result.toOption)).map Except.ok =
      l.map (fun o => o.result) := by
  induction l with
  | nil => rfl
  | cons o t ih =>
    have ho := h o (List.mem_cons_self _ _)
    cases hr : o.result with
    | ok r =>
      rw [List.filterMap_cons]
      have hfo : o.result.toOption = some r := by rw [hr]; rfl
      rw [hfo, List.map_cons, List.map_cons, hr,
        ih (fun x hx => h x (List.mem_cons_of_mem _ hx))]
    | error e =>
      rw [hr] at ho
      simp [Except.toOption] at ho

theorem firstErr_none (l : List (ProcOut A C T X))
    (h : ∀ o ∈ l, (o.result.toOption).isSome = true) : firstErr l = none := by
  apply List.findSome?_eq_none_iff.mpr
  intro o ho
  have hs := h o ho
  cases hr : o.result with
  | ok r => simp [hr]
  | error e =>
    rw [hr] at hs
    simp [Except.toOption] at hs

theorem gatherFold_getElem (tasks : List α) (order : List Nat) :
    ∀ acc : List (Option α), acc.length = tasks.length → ∀ i : Nat,
      (order.foldl (fun acc k => match tasks.get? k with
          | some v => acc.set k (some v)
          | none => acc) acc)[i]? =
        if i ∈ order ∧ i < tasks.length then (tasks[i]?).map some else acc[i]? := by
  induction order with
  | nil =>
    intro acc hlen i
    simp
  | cons k rest ih =>
    intro acc hlen i
    rw [List.foldl_cons]
    cases hk : tasks.get? k with
    | none =>
      have hkn : tasks.length ≤ k := by
        rw [List.get?_eq_getElem?] at hk
        exact List.getElem?_eq_none_iff.mp hk
      simp only [hk]
      rw [ih acc hlen i]
      by_cases hin : i < tasks.length
      · by_cases hr : i ∈ rest
        · rw [if_pos ⟨hr, hin⟩, if_pos ⟨List.mem_cons_of_mem _ hr, hin⟩]
        · rw [if_neg (fun hcon => hr hcon.1), if_neg ?_]
          rintro ⟨hmem, _⟩
          rcases List.mem_cons.mp hmem with hik | hmem'
          · omega
          · exact hr hmem'
      · rw [if_neg (fun hcon => hin hcon.2), if_neg (fun hcon => hin hcon.2)]
    | some v =>
      have hkl : k < tasks.length := by
        by_contra hno
        rw [List.get?_eq_getElem?, List.getElem?_eq_none_iff.mpr (by omega)] at hk
        exact absurd hk (by simp)
      simp only [hk]
      rw [ih (acc.set k (some v)) (by rw [List.length_set]; exact hlen) i]
      by_cases hin : i < tasks.length
      · by_cases hr : i ∈ rest
        · rw [if_pos ⟨hr, hin⟩, if_pos ⟨List.mem_cons_of_mem _ hr, hin⟩]
        · by_cases hik : i = k
          · subst hik
            rw [if_neg (fun hcon => hr hcon.1), if_pos ⟨List.mem_cons_self _ _, hin⟩]
            rw [List.getElem?_set_eq_of_lt _ (by rw [hlen]; exact hkl)]
            rw [List.get?_eq_getElem?] at hk
            rw [hk]
            rfl
          · rw [if_neg (fun hcon => hr hcon.1), if_neg ?_]
            · exact List.getElem?_set_ne (fun hcon => hik hcon.symm)
            · rintro ⟨hmem, _⟩
              rcases List.mem_cons.mp hmem with hik' | hmem'
              · exact hik hik'
              · exact hr hmem'
      · rw [if_neg (fun hcon => hin hcon.2), if_neg (fun hcon => hin hcon.2)]
        have hik : k ≠ i := by omega
        exact List.getElem?_set_ne hik

/-- `asyncio.gather` fills result slots by argument position: executing the
per-document tasks in any completion order yields the same slot assignment,
namely each task's outcome at its own input index. -/
theorem gatherSched_perm (order : List Nat) (tasks : List α)
    (hperm : order.Perm (List.range tasks.length)) :
    gatherSched order tasks = tasks.map some := by
  apply List.ext_getElem?
  intro i
  rw [show gatherSched order tasks =
      order.foldl (fun acc k => match tasks.get? k with
        | some v => acc.set k (some v)
        | none => acc) (List.replicate tasks.length none) from rfl]
  rw [gatherFold_getElem tasks order (List.replicate tasks.length none)
    (by simp) i]
  by_cases hin : i < tasks.length
  · have hmem : i ∈ order := hperm.mem_iff.mpr (List.mem_range.mpr hin)
    rw [if_pos ⟨hmem, hin⟩, List.getElem?_map]
  · rw [if_neg (fun hcon => hin hcon.2)]
    rw [List.getElem?_replicate]
    rw [if_neg hin]
    rw [List.getElem?_map]
    rw [List.getElem?_eq_none_iff.mpr (by omega)]
    rfl

end Pipeline

/-! ## Claim C1 — per-document failure isolation -/

/-- C1 counterexample: a two-document batch whose first document's audit
collaborator raises `"boom"`.  `process_documents_pipeline` does not return
normally with the sibling's report: the exception propagates out of the
gather and the whole call raises (`Except.error`), so the reports list is
never produced. -/
theorem C1_counterexample :
    Pipeline.process_documents_pipeline Fix.collabBoom Fix.aggLen
      [Fix.sdoc "d0", Fix.sdoc "d1"] = Except.error "boom" := by
  rfl

/-- C1 as amended: failure isolation does not happen inside
`process_documents_pipeline` — `asyncio.gather` is called without
`return_exceptions` and there is no try/except, so a stage failure in any one
document makes the whole call raise instead of returning the surviving
reports.  What does hold: the failing document's own event log still records
a `failed` StageEvent carrying the collaborator's error message (isolation to
the job level is done by the caller `_run_pipeline_job`, outside this
function). -/
theorem C1_failure_propagates (c : Pipeline.Collab A C T X)
    (agg : List (Pipeline.Report A C T X) → G) (docs : List Pipeline.Doc)
    (i : Nat) (hi : i < docs.length) (m : String)
    (hfail : (Pipeline.process_single_document c (Pipeline.freshId i) docs[i]).result =
      Except.error m) :
    (∃ m', Pipeline.process_documents_pipeline c agg docs = Except.error m') ∧
    ∃ ev ∈ (Pipeline.process_single_document c (Pipeline.freshId i) docs[i]).docLog.events,
      ev.status = "failed" ∧ ev.detailsError = some m := by
  refine ⟨?_, Pipeline.psd_error_failed_event c (Pipeline.freshId i) docs[i] m hfail⟩
  have hlen : i < (Pipeline.pipelineOuts c docs).length := by
    rw [Pipeline.pipelineOuts_length]
    exact hi
  have hout : (Pipeline.pipelineOuts c docs)[i] =
      Pipeline.process_single_document c (Pipeline.freshId i) docs[i] :=
    Pipeline.pipelineOuts_getElem c docs i hi hlen
  cases hfe : Pipeline.firstErr (Pipeline.pipelineOuts c docs) with
  | none =>
    exfalso
    have hnone := List.findSome?_eq_none_iff.mp hfe
      ((Pipeline.pipelineOuts c docs)[i]) (List.getElem_mem hlen)
    rw [hout, hfail] at hnone
    simp at hnone
  | some e =>
    refine ⟨e, ?_⟩
    simp [Pipeline.process_documents_pipeline, hfe]

/-- Witness for the amended C1 at the concrete failing batch. -/
theorem C1_failure_propagates_witness :
    (Pipeline.process_single_document Fix.collabBoom (Pipeline.freshId 0)
        ([Fix.sdoc "d0", Fix.sdoc "d1"][0])).result = Except.error "boom" ∧
    ((∃ m', Pipeline.process_documents_pipeline Fix.collabBoom Fix.aggLen
        [Fix.sdoc "d0", Fix.sdoc "d1"] = Except.error m') ∧
      ∃ ev ∈ (Pipeline.process_single_document Fix.collabBoom (Pipeline.freshId 0)
          ([Fix.sdoc "d0", Fix.sdoc "d1"][0])).docLog.events,
        ev.status = "failed" ∧ ev.detailsError = some "boom") :=
  ⟨rfl, C1_failure_propagates Fix.collabBoom Fix.aggLen
    [Fix.sdoc "d0", Fix.sdoc "d1"] 0 (by decide) "boom" rfl⟩

/-! ## Claim C5 — exactly one terminal StageEvent per stage -/

/-- C5 (the part the code satisfies): over every collaborator outcome —
success, skip, or exception — each stage that runs appends exactly one
terminal StageEvent to the document's local event log: the log's stage-name
sequence is `["ocr"]` (OCR raised; the remaining stages are not reached by
this call) or `["ocr", "auditoria", "classificacao", "contabilidade"]`, and
every recorded status is terminal (`completed`, `skipped`, or `failed` —
never `running`).  The forwarding half of the claim fails in the code: see
the divergence notes (manager.py never publishes stage events to the
Progress Broadcaster). -/
theorem C5_one_terminal_event_per_stage (c : Pipeline.Collab A C T X)
    (fresh : String) (doc : Pipeline.Doc) :
    ((Pipeline.process_single_document c fresh doc).docLog.events.map
        (fun e => e.stage) = ["ocr"] ∨
      (Pipeline.process_single_document c fresh doc).docLog.events.map
        (fun e => e.stage) = ["ocr", "auditoria", "classificacao", "contabilidade"]) ∧
    ∀ ev ∈ (Pipeline.process_single_document c fresh doc).docLog.events,
      ev.status = "completed" ∨ ev.status = "skipped" ∨ ev.status = "failed" := by
  by_cases hk : doc.kind = "PDF" ∨ doc.kind = "IMAGE"
  · rw [Pipeline.process_single_document, if_pos hk]
    cases ho : c.run_ocr doc with
    | ok text =>
      simp only [Pipeline.run_stage]
      rw [Pipeline.fanout_events]
      constructor
      · refine Or.inr ?_
        simp [Pipeline.run_stage_stage]
      · intro ev hev
        simp only [List.mem_append, List.mem_cons, List.not_mem_nil, or_false] at hev
        rcases hev with hev | hev | hev | hev
        · subst hev
          exact Or.inl rfl
        · subst hev
          rcases Pipeline.run_stage_status "auditoria" (c.audit _) with h | h
          · exact Or.inl h
          · exact Or.inr (Or.inr h)
        · subst hev
          rcases Pipeline.run_stage_status "classificacao" (c.classify _) with h | h
          · exact Or.inl h
          · exact Or.inr (Or.inr h)
        · subst hev
          rcases Pipeline.run_stage_status "contabilidade" (c.compute _) with h | h
          · exact Or.inl h
          · exact Or.inr (Or.inr h)
    | error e =>
      simp only [Pipeline.run_stage]
      constructor
      · exact Or.inl rfl
      · intro ev hev
        simp only [List.mem_singleton] at hev
        subst hev
        exact Or.inr (Or.inr rfl)
  · rw [Pipeline.process_single_document, if_neg hk]
    rw [Pipeline.fanout_events]
    constructor
    · refine Or.inr ?_
      simp [Pipeline.skippedOcrEv, Pipeline.run_stage_stage]
    · intro ev hev
      simp only [List.mem_append, List.mem_cons, List.not_mem_nil, or_false] at hev
      rcases hev with hev | hev | hev | hev
      · subst hev
        exact Or.inr (Or.inl rfl)
      · subst hev
        rcases Pipeline.run_stage_status "auditoria" (c.audit _) with h | h
        · exact Or.inl h
        · exact Or.inr (Or.inr h)
      · subst hev
        rcases Pipeline.run_stage_status "classificacao" (c.classify _) with h | h
        · exact Or.inl h
        · exact Or.inr (Or.inr h)
      · subst hev
        rcases Pipeline.run_stage_status "contabilidade" (c.compute _) with h | h
        · exact Or.inl h
        · exact Or.inr (Or.inr h)

/-! ## Claim C6 — stage timing and semaphore queuing -/

/-- C6 counterexample: in `_run_stage` the inner-semaphore acquisition
(`async with semaphore_inner:`) strictly precedes the `started_at =
time.time()` reading — the claim's order (record before acquire) is false on
the code's action sequence. -/
theorem C6_counterexample :
    ¬ (Pipeline.runStageActions.indexOf Pipeline.StageAction.recordStart <
        Pipeline.runStageActions.indexOf Pipeline.StageAction.semAcquire) ∧
    Pipeline.runStageActions.indexOf Pipeline.StageAction.semAcquire <
      Pipeline.runStageActions.indexOf Pipeline.StageAction.recordStart := by
  decide

/-- C6 as amended: `started_at` is recorded immediately after the inner
semaphore is acquired, so for a call that waits `wait` for a slot and spends
`workDur` in the collaborator, `started_at = wait`, `finished_at = wait +
workDur`, and the recorded duration equals `workDur` — it excludes the
queuing time. -/
theorem C6_started_after_acquire :
    (∀ wait workDur : Nat,
      Pipeline.stageTimes wait workDur = (wait, wait + workDur) ∧
      Pipeline.stageDuration wait workDur = workDur) ∧
    Pipeline.runStageActions.indexOf Pipeline.StageAction.semAcquire <
      Pipeline.runStageActions.indexOf Pipeline.StageAction.recordStart := by
  refine ⟨fun wait workDur => ⟨?_, ?_⟩, by decide⟩
  · simp [Pipeline.stageTimes, Pipeline.runStageActions, Pipeline.actionClock]
  · simp [Pipeline.stageDuration, Pipeline.stageTimes, Pipeline.runStageActions,
      Pipeline.actionClock]

/-! ## Claim C8 — input-order preservation -/

/-- C8: when every document succeeds, `process_documents_pipeline` returns
normally with one report and one log per input document, the report and log
at index `i` are those of the document at input index `i`, and the gather
model is schedule-independent: any completion order fills the result slots
identically. -/
theorem C8_input_order_preserved (c : Pipeline.Collab A C T X)
    (agg : List (Pipeline.Report A C T X) → G) (docs : List Pipeline.Doc)
    (hok : (Pipeline.pipelineOuts c docs).all
      (fun o => (o.result.toOption).isSome) = true) :
    ∃ res, Pipeline.process_documents_pipeline c agg docs = Except.ok res ∧
      res.reports.length = docs.length ∧
      res.logs.length = docs.length ∧
      (∀ i (hi : i < docs.length) (hi' : i < res.reports.length),
        Except.ok (res.reports.get ⟨i, hi'⟩) =
          (Pipeline.process_single_document c (Pipeline.freshId i) docs[i]).result) ∧
      (∀ i (hi : i < docs.length) (hi'' : i < res.logs.length),
        res.logs.get ⟨i, hi''⟩ =
          (Pipeline.process_single_document c (Pipeline.freshId i) docs[i]).docLog) ∧
      (∀ order : List Nat, order.Perm (List.range docs.length) →
        Pipeline.gatherSched order (Pipeline.pipelineOuts c docs) =
          (Pipeline.pipelineOuts c docs).map some) := by
  have hok' : ∀ o ∈ Pipeline.pipelineOuts c docs, (o.result.toOption).isSome = true :=
    fun o ho => List.all_eq_true.mp hok o ho
  have hfe := Pipeline.firstErr_none _ hok'
  have hmap := Pipeline.reports_map_ok _ hok'
  have hlenr : ((Pipeline.pipelineOuts c docs).filterMap
      (fun o => o.result.toOption)).length = docs.length := by
    have := congrArg List.length hmap
    simp only [List.length_map] at this
    rw [this, Pipeline.pipelineOuts_length]
  refine ⟨{ reports := (Pipeline.pipelineOuts c docs).filterMap (fun o => o.result.toOption),
            logs := (Pipeline.pipelineOuts c docs).map (fun o => o.docLog),
            aggregated := agg ((Pipeline.pipelineOuts c docs).filterMap
              (fun o => o.result.toOption)) },
      ?_, ?_, ?_, ?_, ?_, ?_⟩
  · simp [Pipeline.process_documents_pipeline, hfe]
  · exact hlenr
  · simp [List.length_map, Pipeline.pipelineOuts_length]
  · intro i hi hi'
    have hiouts : i < (Pipeline.pipelineOuts c docs).length := by
      rw [Pipeline.pipelineOuts_length]
      exact hi
    have h1 : (((Pipeline.pipelineOuts c docs).filterMap
        (fun o => o.result.toOption)).map Except.ok)[i]? =
        ((Pipeline.pipelineOuts c docs).map (fun o => o.result))[i]? := by
      rw [hmap]
    rw [List.getElem?_map, List.getElem?_map,
      List.getElem?_eq_getElem hi', List.getElem?_eq_getElem hiouts] at h1
    simp only [Option.map_some] at h1
    have h2 := Option.some.inj h1
    rw [List.get_eq_getElem]
    rw [h2, Pipeline.pipelineOuts_getElem c docs i hi hiouts]
  · intro i hi hi''
    have hiouts : i < (Pipeline.pipelineOuts c docs).length := by
      rw [Pipeline.pipelineOuts_length]
      exact hi
    rw [List.get_eq_getElem]
    rw [List.getElem_map]
    rw [Pipeline.pipelineOuts_getElem c docs i hi hiouts]
  · intro order hperm
    exact Pipeline.gatherSched_perm order _ (by rw [Pipeline.pipelineOuts_length]; exact hperm)

/-- Witness for C8: a fully succeeding two-document batch, with the reversed
completion order `[1, 0]`. -/
theorem C8_input_order_preserved_witness :
    ((Pipeline.pipelineOuts Fix.collabOk [Fix.sdoc "a", Fix.sdoc "b"]).all
      (fun o => (o.result.toOption).isSome) = true) ∧
    ∃ res, Pipeline.process_documents_pipeline Fix.collabOk Fix.aggLen
        [Fix.sdoc "a", Fix.sdoc "b"] = Except.ok res ∧
      res.reports.length = 2 ∧
      Pipeline.gatherSched [1, 0]
          (Pipeline.pipelineOuts Fix.collabOk [Fix.sdoc "a", Fix.sdoc "b"]) =
        (Pipeline.pipelineOuts Fix.collabOk [Fix.sdoc "a", Fix.sdoc "b"]).map some := by
  have hok : (Pipeline.pipelineOuts Fix.collabOk [Fix.sdoc "a", Fix.sdoc "b"]).all
      (fun o => (o.result.toOption).isSome) = true := by decide
  obtain ⟨res, h1, h2, h3, h4, h5, h6⟩ :=
    C8_input_order_preserved Fix.collabOk Fix.aggLen [Fix.sdoc "a", Fix.sdoc "b"] hok
  exact ⟨hok, res, h1, h2, h6 [1, 0] (by decide)⟩

/-! ## Claim C9 — batch concurrency bound -/

/-- C9: the batch semaphore has size `ASYNC_BATCH_SIZE = max(1,
MAX_CONCURRENT_TASKS)` — 8 with the default setting and never below 1 — and
along every reachable execution of acquire/release steps no more than that
many document processors hold it simultaneously. -/
theorem C9_concurrency_bound (m : Nat) :
    (∀ h : Nat, Pipeline.SemReachable (Pipeline.ASYNC_BATCH_SIZE m) h →
      h ≤ Pipeline.ASYNC_BATCH_SIZE m) ∧
    Pipeline.ASYNC_BATCH_SIZE Pipeline.MAX_CONCURRENT_TASKS_default = 8 ∧
    1 ≤ Pipeline.ASYNC_BATCH_SIZE m := by
  refine ⟨?_, rfl, le_max_left _ _⟩
  intro h hr
  induction hr with
  | refl => exact Nat.zero_le _
  | tail hpre hstep ih =>
    cases hstep with
    | acquire hlt => omega
    | release hpos => omega

/-- Witness for C9: with `MAX_CONCURRENT_TASKS = 2`, one acquisition is a
reachable holder count, and the bound applies to it. -/
theorem C9_concurrency_bound_witness :
    Pipeline.SemReachable (Pipeline.ASYNC_BATCH_SIZE 2) 1 ∧
    1 ≤ Pipeline.ASYNC_BATCH_SIZE 2 := by
  have hreach : Pipeline.SemReachable (Pipeline.ASYNC_BATCH_SIZE 2) 1 :=
    Relation.ReflTransGen.single (Pipeline.SemStep.acquire (by decide))
  exact ⟨hreach, (C9_concurrency_bound 2).1 1 hreach⟩
